import Mathlib

/-!
Verification of `scipy/special/_support_alternative_backends.py`.

Two models, both shallow embeddings of the source:

* A scalar value model `FpVal` (NaN, ±infinity, finite rational) with
  IEEE-style comparison and arithmetic semantics, used to embed the
  elementwise generic fallback implementations (`_rel_entr`, `_xlogy`,
  `_chdtr`, `_chdtrc`, `_betaincc`, `_stdtr`).  Back-end primitives
  (`xp.log`, `gammainc`, `gammaincc`, `betainc`) are capabilities of the
  array back end in the source, so they appear as function parameters.
  Elementwise array combinators (`xp.where`, `xpx.apply_where`,
  `xpx.at[...].set`) become value-level conditionals.

* A dispatch model over an abstract function-value type `α`, embedding
  `get_array_special_func`, `_get_native_func` and the
  `_generic_implementations` table, used for the claims about dispatch
  order, fallback availability and the masked-array synthesis.
-/

/-- Scalar model of a floating-point value: NaN, +inf, -inf, or a finite
rational.  (No signed zero: none of the verified code paths distinguish
`-0.0` from `0.0`.) -/
inductive FpVal where
  | nan : FpVal
  | pinf : FpVal
  | ninf : FpVal
  | fin : ℚ → FpVal
deriving DecidableEq, Repr

namespace FpVal

/-- IEEE `<`: any comparison with NaN is false. -/
def ltb : FpVal → FpVal → Bool
  | nan, _ => false
  | _, nan => false
  | ninf, ninf => false
  | ninf, _ => true
  | pinf, _ => false
  | fin _, pinf => true
  | fin _, ninf => false
  | fin a, fin b => a < b

/-- IEEE `<=`: any comparison with NaN is false. -/
def leb : FpVal → FpVal → Bool
  | nan, _ => false
  | _, nan => false
  | ninf, _ => true
  | pinf, pinf => true
  | pinf, _ => false
  | fin _, pinf => true
  | fin _, ninf => false
  | fin a, fin b => a ≤ b

/-- IEEE `==`: NaN compares unequal to everything, including itself. -/
def eqb : FpVal → FpVal → Bool
  | nan, _ => false
  | _, nan => false
  | pinf, pinf => true
  | ninf, ninf => true
  | fin a, fin b => a = b
  | _, _ => false

def isinf : FpVal → Bool
  | pinf => true
  | ninf => true
  | _ => false

def isnan : FpVal → Bool
  | nan => true
  | _ => false

def neg : FpVal → FpVal
  | nan => nan
  | pinf => ninf
  | ninf => pinf
  | fin a => fin (-a)

def add : FpVal → FpVal → FpVal
  | nan, _ => nan
  | _, nan => nan
  | pinf, ninf => nan
  | ninf, pinf => nan
  | pinf, _ => pinf
  | ninf, _ => ninf
  | fin _, pinf => pinf
  | fin _, ninf => ninf
  | fin a, fin b => fin (a + b)

def sub (x y : FpVal) : FpVal := add x (neg y)

def mul : FpVal → FpVal → FpVal
  | nan, _ => nan
  | _, nan => nan
  | pinf, pinf => pinf
  | pinf, ninf => ninf
  | ninf, pinf => ninf
  | ninf, ninf => pinf
  | pinf, fin b => if 0 < b then pinf else if b < 0 then ninf else nan
  | ninf, fin b => if 0 < b then ninf else if b < 0 then pinf else nan
  | fin a, pinf => if 0 < a then pinf else if a < 0 then ninf else nan
  | fin a, ninf => if 0 < a then ninf else if a < 0 then pinf else nan
  | fin a, fin b => fin (a * b)

def div : FpVal → FpVal → FpVal
  | nan, _ => nan
  | _, nan => nan
  | pinf, pinf => nan
  | pinf, ninf => nan
  | ninf, pinf => nan
  | ninf, ninf => nan
  | pinf, fin b => if b < 0 then ninf else pinf
  | ninf, fin b => if b < 0 then pinf else ninf
  | fin _, pinf => fin 0
  | fin _, ninf => fin 0
  | fin a, fin b =>
      if b = 0 then (if 0 < a then pinf else if a < 0 then ninf else nan)
      else fin (a / b)

end FpVal

open FpVal in
/-- Embedding of the closure built by `_rel_entr` (source lines 66-84),
elementwise.  `lg` models the back end function `log` (`mxp.log`); `xp_promote`
is the identity at scalar level; `xpx.apply_where(cond, args, f, fill)`
and `xpx.at(res)[mask].set(v)` become conditionals. -/
def relEntrImpl (lg : FpVal → FpVal) (x y : FpVal) : FpVal :=
  let xy_pos := ltb (fin 0) x && ltb (fin 0) y
  let xy_inf := x.isinf && y.isinf
  let res := if xy_pos && !xy_inf then mul x (sub (lg x) (lg y)) else pinf
  let res := if eqb x (fin 0) && leb (fin 0) y then fin 0 else res
  let res := if x.isnan || y.isnan || (xy_pos && xy_inf) then nan else res
  res

open FpVal in
/-- Embedding of the closure built by `_xlogy` (source lines 87-92),
elementwise: `temp = x * xp.log(y)` under suppressed warnings, then
`xp.where(x == 0., 0., temp)`. -/
def xlogyImpl (lg : FpVal → FpVal) (x y : FpVal) : FpVal :=
  let temp := mul x (lg y)
  if eqb x (fin 0) then fin 0 else temp

open FpVal in
/-- Embedding of the `_chdtr` factory (source lines 102-118).  Its argument
models the `_get_native_func` lookup of `gammainc`: `none` when the back end
lacks a native `gammainc`, in which case the factory returns `None`. -/
def chdtrImpl (gammainc : Option (FpVal → FpVal → FpVal)) :
    Option (FpVal → FpVal → FpVal) :=
  gammainc.map fun g => fun v x =>
    let res := g (div v (fin 2)) (div x (fin 2))
    let res := if eqb v (fin 0) && ltb (fin 0) x then fin 1 else res
    if v.isinf && x.isinf then nan else res

open FpVal in
/-- Embedding of the `_chdtrc` factory (source lines 121-135).  Its argument
models the `_get_native_func` lookup of `gammaincc`. -/
def chdtrcImpl (gammaincc : Option (FpVal → FpVal → FpVal)) :
    Option (FpVal → FpVal → FpVal) :=
  gammaincc.map fun g => fun v x =>
    let res := if leb (fin 0) x then g (div v (fin 2)) (div x (fin 2)) else fin 1
    let i_nan := (eqb x (fin 0) && eqb v (fin 0)) || x.isnan || v.isnan
      || leb v (fin 0)
    if i_nan then nan else res

open FpVal in
/-- Embedding of the `_betaincc` factory (source lines 138-146).  Its
argument models the `_get_native_func` lookup of `betainc`. -/
def betainccImpl (betainc : Option (FpVal → FpVal → FpVal → FpVal)) :
    Option (FpVal → FpVal → FpVal → FpVal) :=
  betainc.map fun bi => fun a b x => bi b a (sub (fin 1) x)

open FpVal in
/-- Embedding of the `_stdtr` factory (source lines 149-159).  Its argument
models the `_get_native_func` lookup of `betainc`; `t ** 2` is `mul t t`. -/
def stdtrImpl (betainc : Option (FpVal → FpVal → FpVal → FpVal)) :
    Option (FpVal → FpVal → FpVal) :=
  betainc.map fun bi => fun df t =>
    let x := div df (add (mul t t) df)
    let tail := div (bi (div df (fin 2)) (fin (1/2)) x) (fin 2)
    if ltb t (fin 0) then tail else sub (fin 1) tail

/-- Model of an array back end as seen by the dispatcher.  `α` is the type
of function values held in special-function namespaces.  `spx` models
`scipy_namespace_for(xp)` (lookup in `spx.special`, `none` when the
companion namespace is absent); `xpSpecial` models `xp.special` when
the back end has a `special` attribute. -/
structure Backend (α : Type) where
  isNumpy : Bool
  spx : Option (String → Option α)
  xpSpecial : Option (String → Option α)
  isMarray : Bool
  isDask : Bool

/-- Embedding of `_get_native_func` (source lines 95-99):
`f = getattr(spx.special, f_name, None) if spx else None`, and if that is
`None` and the back end has a `special` attribute, look the name up in
`xp.special` (with `None` as the missing-attribute default). -/
def _get_native_func {α : Type} (xp : Backend α) (f_name : String) : Option α :=
  let f := match xp.spx with
    | some s => s f_name
    | none => none
  match f with
  | some g => some g
  | none =>
    match xp.xpSpecial with
    | some s => s f_name
    | none => none

/-- A generic fallback implementation as returned by a factory in
`_generic_implementations`; the `chdtrG` .. `stdtritG` constructors record
the native primitive the closure captured via `_get_native_func`. -/
inductive GenFunc (α : Type) where
  | relEntrG : GenFunc α
  | xlogyG : GenFunc α
  | chdtrG : α → GenFunc α
  | chdtrcG : α → GenFunc α
  | betainccG : α → GenFunc α
  | stdtrG : α → GenFunc α
  | stdtritG : α → GenFunc α
deriving DecidableEq, Repr

/-- The three shapes of the synthesized convert-to-native implementation in
`get_array_special_func` (source lines 39-61): the masked-array branch, the
dask `map_blocks` branch, and the plain NumPy-conversion branch. -/
inductive SynthVariant where
  | marray : SynthVariant
  | dask : SynthVariant
  | plain : SynthVariant
deriving DecidableEq, Repr

/-- The result of dispatch: the compiled `_ufuncs` kernel, a function found
in the companion special namespace of the back end, a generic fallback, or the
synthesized native-conversion implementation. -/
inductive Impl (α : Type) where
  | kernel : String → Impl α
  | fromNamespace : α → Impl α
  | generic : GenFunc α → Impl α
  | synthesized : String → SynthVariant → Impl α
deriving DecidableEq, Repr

/-- Embedding of the `_generic_implementations` table (source lines
181-188), with the availability logic of each factory: `_rel_entr` and `_xlogy`
always return a closure; `_chdtr`/`_chdtrc`/`_betaincc`/`_stdtr`/`_stdtrit`
return `None` exactly when `_get_native_func` finds no native
`gammainc`/`gammaincc`/`betainc`. -/
def _generic_implementations (α : Type) (f_name : String) :
    Option (Backend α → Option (GenFunc α)) :=
  if f_name = "rel_entr" then some fun _ => some .relEntrG
  else if f_name = "xlogy" then some fun _ => some .xlogyG
  else if f_name = "chdtr" then
    some fun xp => (_get_native_func xp "gammainc").map .chdtrG
  else if f_name = "chdtrc" then
    some fun xp => (_get_native_func xp "gammaincc").map .chdtrcG
  else if f_name = "betaincc" then
    some fun xp => (_get_native_func xp "betainc").map .betainccG
  else if f_name = "stdtr" then
    some fun xp => (_get_native_func xp "betainc").map .stdtrG
  else if f_name = "stdtrit" then
    some fun xp => (_get_native_func xp "betainc").map .stdtritG
  else none

/-- Which branch the synthesized fallback `f` (source lines 39-61) takes for
this back end: `is_marray(xp)`, `is_dask(xp)`, or the plain conversion. -/
def synthVariant {α : Type} (xp : Backend α) : SynthVariant :=
  if xp.isMarray then .marray else if xp.isDask then .dask else .plain

/-- Embedding of `get_array_special_func` (source lines 22-63). -/
def get_array_special_func {α : Type} (f_name : String) (xp : Backend α) :
    Impl α :=
  if xp.isNumpy then .kernel f_name
  else
    let viaSpx := match xp.spx with
      | some s => s f_name
      | none => none
    match viaSpx with
    | some f => .fromNamespace f
    | none =>
      match _generic_implementations α f_name with
      | some factory =>
        match factory xp with
        | some g => .generic g
        | none => .synthesized f_name (synthVariant xp)
      | none => .synthesized f_name (synthVariant xp)

/-- The `array_special_func_map` table (source lines 206-230): function
name to positional arity. -/
def array_special_func_map : List (String × Nat) :=
  [("log_ndtr", 1), ("ndtr", 1), ("ndtri", 1), ("erf", 1), ("erfc", 1),
   ("i0", 1), ("i0e", 1), ("i1", 1), ("i1e", 1), ("gammaln", 1),
   ("gammainc", 2), ("gammaincc", 2), ("logit", 1), ("expit", 1),
   ("entr", 1), ("rel_entr", 2), ("xlogy", 2), ("chdtr", 2), ("chdtrc", 2),
   ("betainc", 3), ("betaincc", 3), ("stdtr", 2), ("stdtrit", 2)]

/-- A masked array at the elementwise level: payload data plus a validity
mask bit. -/
structure MaskedArray (V : Type) where
  data : V
  mask : Bool
deriving DecidableEq, Repr

/-- Embedding of the `is_marray(xp)` branch of the synthesized fallback
(source lines 40-45): `public_f` models `globals()[f_name]`, the public
dispatching wrapper; the result is `public_f` applied to the per-argument
`.data`, with mask `functools.reduce(operator.or_, (arg.mask for arg in
args))` (which raises on an empty argument list, modelled as `none`). -/
def maskedSynth {V : Type} (public_f : List V → V)
    (args : List (MaskedArray V)) : Option (MaskedArray V) :=
  match args with
  | [] => none
  | a :: rest =>
      some { data := public_f ((a :: rest).map (·.data)),
             mask := rest.foldl (fun m b => m || b.mask) a.mask }

open FpVal

theorem ltb_fin0_eqb {x : FpVal} (h : ltb (fin 0) x = true) :
    eqb x (fin 0) = false := by
  cases x <;> simp_all [ltb, eqb]
  exact ne_of_gt h

theorem ltb_fin0_isnan {x : FpVal} (h : ltb (fin 0) x = true) :
    x.isnan = false := by
  cases x <;> simp_all [ltb, isnan]

theorem leb_fin0_isnan {y : FpVal} (h : leb (fin 0) y = true) :
    y.isnan = false := by
  cases y <;> simp_all [leb, isnan]

theorem eqb_fin0 {x : FpVal} (h : eqb x (fin 0) = true) : x = fin 0 := by
  cases x <;> simp_all [eqb]

/-- Claim C2, counterexample: the claim says the result is NaN wherever `x`
and `y` are both infinite, but at `x = -inf`, `y = +inf` (both infinite) the
code produces `+inf`: the NaN override in the source is `xy_pos & xy_inf`,
which also requires both arguments positive. -/
theorem C2_rel_entr_counterexample :
    FpVal.isinf FpVal.ninf = true ∧ FpVal.isinf FpVal.pinf = true ∧
    relEntrImpl (fun _ => FpVal.nan) FpVal.ninf FpVal.pinf = FpVal.pinf ∧
    relEntrImpl (fun _ => FpVal.nan) FpVal.ninf FpVal.pinf ≠ FpVal.nan := by
  refine ⟨rfl, rfl, rfl, ?_⟩
  simp [relEntrImpl, ltb, eqb, leb, isinf, isnan]

/-- Claim C2 as amended: the NaN rule fires where `x` or `y` is NaN, or
where `x` and `y` are both infinite AND both positive (not merely both
infinite).  Elementwise, with `lg` the back end log: where `x>0`, `y>0` and
not both infinite the result is `x*(log x - log y)`; where `x==0` and
`y>=0` it is `0`; where the (amended) NaN rule fires it is NaN; everywhere
else it is `+inf`. -/
theorem C2_rel_entr_regions (lg : FpVal → FpVal) (x y : FpVal) :
    (ltb (fin 0) x = true ∧ ltb (fin 0) y = true ∧
        ¬(x.isinf = true ∧ y.isinf = true) →
      relEntrImpl lg x y = mul x (sub (lg x) (lg y))) ∧
    (eqb x (fin 0) = true ∧ leb (fin 0) y = true →
      relEntrImpl lg x y = fin 0) ∧
    (x.isnan = true ∨ y.isnan = true ∨
        (ltb (fin 0) x = true ∧ ltb (fin 0) y = true ∧ x.isinf = true ∧
          y.isinf = true) →
      relEntrImpl lg x y = nan) ∧
    (¬(ltb (fin 0) x = true ∧ ltb (fin 0) y = true ∧
        ¬(x.isinf = true ∧ y.isinf = true)) →
      ¬(eqb x (fin 0) = true ∧ leb (fin 0) y = true) →
      ¬(x.isnan = true ∨ y.isnan = true ∨
        (ltb (fin 0) x = true ∧ ltb (fin 0) y = true ∧ x.isinf = true ∧
          y.isinf = true)) →
      relEntrImpl lg x y = pinf) := by
  refine ⟨?_, ?_, ?_, ?_⟩
  · rintro ⟨hx, hy, hninf⟩
    have hinfb : (x.isinf && y.isinf) = false := by
      cases hix : x.isinf <;> cases hiy : y.isinf <;> simp_all
    simp [relEntrImpl, hx, hy, hinfb, ltb_fin0_eqb hx, ltb_fin0_isnan hx,
      ltb_fin0_isnan hy]
  · rintro ⟨hx0, hy⟩
    rw [eqb_fin0 hx0]
    have hxl : ltb (fin 0) (fin 0) = false := by norm_num [ltb]
    have c1 : (ltb (fin 0) (fin 0) && ltb (fin 0) y &&
        !((fin 0).isinf && y.isinf)) = false := by simp [hxl]
    have c2 : (eqb (fin 0) (fin 0) && leb (fin 0) y) = true := by
      simp [eqb, hy]
    have h0n : (fin 0).isnan = false := rfl
    have c3 : ((fin 0).isnan || y.isnan ||
        (ltb (fin 0) (fin 0) && ltb (fin 0) y &&
          ((fin 0).isinf && y.isinf))) = false := by
      simp [h0n, leb_fin0_isnan hy, hxl]
    simp only [relEntrImpl, c1, c2, c3]
    simp
  · intro hnan
    have h3 : (x.isnan || y.isnan ||
        (ltb (fin 0) x && ltb (fin 0) y && (x.isinf && y.isinf))) = true := by
      rcases hnan with h | h | ⟨h1, h2, h3, h4⟩ <;> simp_all
    simp only [relEntrImpl]
    rw [h3]
    simp
  · intro h1 h2 h3
    have c1 : (ltb (fin 0) x && ltb (fin 0) y && !(x.isinf && y.isinf))
        = false := by
      rw [Bool.eq_false_iff]
      intro hb
      simp only [Bool.and_eq_true, Bool.not_eq_true'] at hb
      exact h1 ⟨hb.1.1, hb.1.2, fun hc => by simp [hc.1, hc.2] at hb⟩
    have c2 : (eqb x (fin 0) && leb (fin 0) y) = false := by
      rw [Bool.eq_false_iff]
      intro hb
      simp only [Bool.and_eq_true] at hb
      exact h2 ⟨hb.1, hb.2⟩
    have c3 : (x.isnan || y.isnan ||
        (ltb (fin 0) x && ltb (fin 0) y && (x.isinf && y.isinf))) = false := by
      rw [Bool.eq_false_iff]
      intro hb
      simp only [Bool.or_eq_true, Bool.and_eq_true] at hb
      refine h3 ?_
      rcases hb with (h | h) | ⟨⟨ha, hc⟩, hd, he⟩
      · exact Or.inl h
      · exact Or.inr (Or.inl h)
      · exact Or.inr (Or.inr ⟨ha, hc, hd, he⟩)
    simp only [relEntrImpl, c1, c2, c3]
    simp

/-- Closed instances of `C2_rel_entr_regions`, one per region:
`rel_entr(2, 1)` takes the arithmetic formula, `rel_entr(0, 3) = 0`,
`rel_entr(nan, 1) = nan`, and `rel_entr(2, 0) = +inf`. -/
theorem C2_rel_entr_witness :
    relEntrImpl (fun _ => fin 5) (fin 2) (fin 1) =
      mul (fin 2) (sub ((fun _ : FpVal => fin 5) (fin 2))
        ((fun _ : FpVal => fin 5) (fin 1))) ∧
    relEntrImpl (fun _ => fin 5) (fin 0) (fin 3) = fin 0 ∧
    relEntrImpl (fun _ => fin 5) nan (fin 1) = nan ∧
    relEntrImpl (fun _ => fin 5) (fin 2) (fin 0) = pinf :=
  ⟨(C2_rel_entr_regions (fun _ => fin 5) (fin 2) (fin 1)).1
      ⟨by decide, by decide, by decide⟩,
   (C2_rel_entr_regions (fun _ => fin 5) (fin 0) (fin 3)).2.1
      ⟨by decide, by decide⟩,
   (C2_rel_entr_regions (fun _ => fin 5) nan (fin 1)).2.2.1
      (Or.inl (by decide)),
   (C2_rel_entr_regions (fun _ => fin 5) (fin 2) (fin 0)).2.2.2
      (by decide) (by decide) (by decide)⟩

/-- Claim C3: the generic `xlogy(x, y)` fallback returns `x * log(y)`
elementwise, except that wherever `x == 0` the result is exactly `0`
regardless of `y`; in particular `xlogy(0,0) = 0`, `xlogy(0,-1) = 0` and,
whenever the back end log satisfies `log 1 = 0`, `xlogy(2,1) = 0`.  (The
warning suppression is the `np.errstate` context in the source, which has
no value-level effect.) -/
theorem C3_xlogy_spec (lg : FpVal → FpVal) (x y : FpVal) :
    (eqb x (fin 0) = true → xlogyImpl lg x y = fin 0) ∧
    (eqb x (fin 0) = false → xlogyImpl lg x y = mul x (lg y)) ∧
    xlogyImpl lg (fin 0) (fin 0) = fin 0 ∧
    xlogyImpl lg (fin 0) (fin (-1)) = fin 0 ∧
    (lg (fin 1) = fin 0 → xlogyImpl lg (fin 2) (fin 1) = fin 0) := by
  refine ⟨fun h => ?_, fun h => ?_, ?_, ?_, fun h => ?_⟩
  · simp [xlogyImpl, h]
  · simp [xlogyImpl, h]
  · simp [xlogyImpl, eqb]
  · simp [xlogyImpl, eqb]
  · simp [xlogyImpl, eqb, h, mul]

/-- Closed instance of `C3_xlogy_spec`, discharging each hypothesis at
concrete inputs (with the identity-on-argument log model `fun y => y`
replaced by a log sending `1` to `0`). -/
theorem C3_xlogy_witness :
    xlogyImpl (fun _ => nan) (fin 0) (fin 7) = fin 0 ∧
    xlogyImpl (fun _ => nan) (fin 3) (fin 7) =
      mul (fin 3) ((fun _ => nan) (fin 7)) ∧
    xlogyImpl (fun _ => fin 0) (fin 2) (fin 1) = fin 0 :=
  ⟨(C3_xlogy_spec (fun _ => nan) (fin 0) (fin 7)).1 (by decide),
   (C3_xlogy_spec (fun _ => nan) (fin 3) (fin 7)).2.1 (by decide),
   (C3_xlogy_spec (fun _ => fin 0) (fin 2) (fin 1)).2.2.2.2 rfl⟩

theorem ltb_fin0_leb {x : FpVal} (h : ltb (fin 0) x = true) :
    leb x (fin 0) = false := by
  cases x <;> simp_all [ltb, leb]

theorem ltb_neg_leb {x : FpVal} (h : ltb x (fin 0) = true) :
    leb (fin 0) x = false := by
  cases x <;> simp_all [ltb, leb]

theorem ltb_neg_isnan {x : FpVal} (h : ltb x (fin 0) = true) :
    x.isnan = false := by
  cases x <;> simp_all [ltb, isnan]

theorem ltb_neg_eqb {x : FpVal} (h : ltb x (fin 0) = true) :
    eqb x (fin 0) = false := by
  cases x <;> simp_all [ltb, eqb]
  exact ne_of_lt h

/-- Claim C4: the generic `chdtr(v, x)` fallback computes
`gammainc(v/2, x/2)` elementwise, forces the result to `1` where `v == 0`
and `x > 0`, and forces NaN where `v` and `x` are both infinite; so
`chdtr(0, 5) = 1` and `chdtr(inf, inf) = nan`.  The factory returns `none`
when the back end lacks a native `gammainc`. -/
theorem C4_chdtr_spec :
    chdtrImpl none = none ∧
    ∀ g : FpVal → FpVal → FpVal, ∃ f, chdtrImpl (some g) = some f ∧
      (∀ v x,
        (v.isinf = true ∧ x.isinf = true → f v x = nan) ∧
        (eqb v (fin 0) = true ∧ ltb (fin 0) x = true → f v x = fin 1) ∧
        (¬(eqb v (fin 0) = true ∧ ltb (fin 0) x = true) →
          ¬(v.isinf = true ∧ x.isinf = true) →
          f v x = g (div v (fin 2)) (div x (fin 2)))) ∧
      f (fin 0) (fin 5) = fin 1 ∧ f pinf pinf = nan := by
  refine ⟨rfl, fun g => ⟨_, rfl, fun v x => ⟨?_, ?_, ?_⟩, ?_, ?_⟩⟩
  · rintro ⟨hv, hx⟩
    simp [chdtrImpl, hv, hx]
  · rintro ⟨hv0, hx⟩
    rw [eqb_fin0 hv0]
    have h0i : (fin 0).isinf = false := rfl
    have h0e : eqb (fin 0) (fin 0) = true := by simp [eqb]
    simp [chdtrImpl, h0i, h0e, hx]
  · intro h1 h2
    have c1 : (eqb v (fin 0) && ltb (fin 0) x) = false := by
      rw [Bool.eq_false_iff]
      intro hb
      simp only [Bool.and_eq_true] at hb
      exact h1 ⟨hb.1, hb.2⟩
    have c2 : (v.isinf && x.isinf) = false := by
      rw [Bool.eq_false_iff]
      intro hb
      simp only [Bool.and_eq_true] at hb
      exact h2 ⟨hb.1, hb.2⟩
    simp [chdtrImpl, c1, c2]
  · have h0i : (fin 0).isinf = false := rfl
    have h0e : eqb (fin 0) (fin 0) = true := by simp [eqb]
    have h05 : ltb (fin 0) (fin 5) = true := by norm_num [ltb]
    simp [chdtrImpl, h0i, h0e, h05]
  · have hpe : eqb pinf (fin 0) = false := rfl
    simp [chdtrImpl, hpe, isinf]

/-- Closed instances of the conditional parts of `C4_chdtr_spec`, with
`gammainc` modelled by a concrete function: the NaN override at
`(inf, inf)`, the forced `1` at `(0, 5)`, and the base formula at
`(2, 6)`. -/
theorem C4_chdtr_witness :
    ∃ f, chdtrImpl (some fun _ _ => fin (3/4)) = some f ∧
      f pinf pinf = nan ∧ f (fin 0) (fin 5) = fin 1 ∧
      f (fin 2) (fin 6) =
        (fun _ _ => fin (3/4)) (div (fin 2) (fin 2)) (div (fin 6) (fin 2)) := by
  obtain ⟨f, hf, hreg, h1, h2⟩ := (C4_chdtr_spec).2 (fun _ _ => fin (3/4))
  refine ⟨f, hf, h2, h1, ?_⟩
  refine (hreg (fin 2) (fin 6)).2.2 ?_ ?_
  · rintro ⟨hc, -⟩
    rw [show eqb (fin 2) (fin 0) = false by norm_num [eqb]] at hc
    cases hc
  · rintro ⟨hc, -⟩
    cases hc

/-- Claim C5: the generic `chdtrc(v, x)` fallback returns
`gammaincc(v/2, x/2)` where `x >= 0` and `1` where `x < 0`, then forces NaN
exactly on `(x==0 and v==0) or isnan(x) or isnan(v) or v<=0`; in particular
`chdtrc(0,0) = nan` and `chdtrc(df, x) = 1` for `x < 0` and `df > 0`.  The
factory returns `none` when the back end lacks a native `gammaincc`. -/
theorem C5_chdtrc_spec :
    chdtrcImpl none = none ∧
    ∀ g : FpVal → FpVal → FpVal, ∃ f, chdtrcImpl (some g) = some f ∧
      (∀ v x,
        ((eqb x (fin 0) = true ∧ eqb v (fin 0) = true) ∨ x.isnan = true ∨
            v.isnan = true ∨ leb v (fin 0) = true → f v x = nan) ∧
        (¬((eqb x (fin 0) = true ∧ eqb v (fin 0) = true) ∨ x.isnan = true ∨
            v.isnan = true ∨ leb v (fin 0) = true) → leb (fin 0) x = true →
          f v x = g (div v (fin 2)) (div x (fin 2))) ∧
        (¬((eqb x (fin 0) = true ∧ eqb v (fin 0) = true) ∨ x.isnan = true ∨
            v.isnan = true ∨ leb v (fin 0) = true) → leb (fin 0) x = false →
          f v x = fin 1)) ∧
      f (fin 0) (fin 0) = nan ∧
      (∀ d xv, ltb (fin 0) d = true → ltb xv (fin 0) = true →
        f d xv = fin 1) := by
  refine ⟨rfl, fun g => ⟨_, rfl, fun v x => ⟨?_, ?_, ?_⟩, ?_, ?_⟩⟩
  · intro h
    have c : ((eqb x (fin 0) && eqb v (fin 0)) || x.isnan || v.isnan ||
        leb v (fin 0)) = true := by
      rcases h with ⟨h1, h2⟩ | h | h | h <;> simp_all
    simp only [chdtrcImpl, Option.map_some]
    simp only [c]
    simp
  · intro h hx
    have c : ((eqb x (fin 0) && eqb v (fin 0)) || x.isnan || v.isnan ||
        leb v (fin 0)) = false := by
      rw [Bool.eq_false_iff]
      intro hb
      simp only [Bool.or_eq_true, Bool.and_eq_true] at hb
      refine h ?_
      rcases hb with ((⟨h1, h2⟩ | h1) | h1) | h1
      · exact Or.inl ⟨h1, h2⟩
      · exact Or.inr (Or.inl h1)
      · exact Or.inr (Or.inr (Or.inl h1))
      · exact Or.inr (Or.inr (Or.inr h1))
    simp [chdtrcImpl, c, hx]
  · intro h hx
    have c : ((eqb x (fin 0) && eqb v (fin 0)) || x.isnan || v.isnan ||
        leb v (fin 0)) = false := by
      rw [Bool.eq_false_iff]
      intro hb
      simp only [Bool.or_eq_true, Bool.and_eq_true] at hb
      refine h ?_
      rcases hb with ((⟨h1, h2⟩ | h1) | h1) | h1
      · exact Or.inl ⟨h1, h2⟩
      · exact Or.inr (Or.inl h1)
      · exact Or.inr (Or.inr (Or.inl h1))
      · exact Or.inr (Or.inr (Or.inr h1))
    simp [chdtrcImpl, c, hx]
  · have h0e : eqb (fin 0) (fin 0) = true := by simp [eqb]
    simp [chdtrcImpl, h0e]
  · intro d xv hd hx
    have c : ((eqb xv (fin 0) && eqb d (fin 0)) || xv.isnan || d.isnan ||
        leb d (fin 0)) = false := by
      simp [ltb_neg_eqb hx, ltb_neg_isnan hx, ltb_fin0_isnan hd,
        ltb_fin0_leb hd]
    simp [chdtrcImpl, c, ltb_neg_leb hx]

/-- Closed instances of the conditional parts of `C5_chdtrc_spec` with a
concrete `gammaincc`: `chdtrc(0,0) = nan` (via the NaN region),
`chdtrc(3,-1) = 1`, and the base formula at `(3, 4)`. -/
theorem C5_chdtrc_witness :
    ∃ f, chdtrcImpl (some fun _ _ => fin (1/4)) = some f ∧
      f (fin 0) (fin 0) = nan ∧ f (fin 3) (fin (-1)) = fin 1 ∧
      f (fin 3) (fin 4) =
        (fun _ _ => fin (1/4)) (div (fin 3) (fin 2)) (div (fin 4) (fin 2)) := by
  obtain ⟨f, hf, hreg, h00, hneg⟩ := (C5_chdtrc_spec).2 (fun _ _ => fin (1/4))
  refine ⟨f, hf, h00, hneg (fin 3) (fin (-1)) (by norm_num [ltb])
    (by norm_num [ltb]), ?_⟩
  refine (hreg (fin 3) (fin 4)).2.1 ?_ (by norm_num [leb])
  rintro (⟨hc, -⟩ | hc | hc | hc)
  · rw [show eqb (fin 4) (fin 0) = false by norm_num [eqb]] at hc
    cases hc
  · cases hc
  · cases hc
  · rw [show leb (fin 3) (fin 0) = false by norm_num [leb]] at hc
    cases hc

/-- Claim C7: for all `a`, `b` and `x` in `(0,1)`, the generic
`betaincc(a, b, x)` fallback returns exactly the back end `betainc(b, a,
1-x)`; it is defined by that identity with no further correction. -/
theorem C7_betaincc_identity (bi : FpVal → FpVal → FpVal → FpVal)
    (a b x : FpVal) (hx0 : ltb (fin 0) x = true) (hx1 : ltb x (fin 1) = true) :
    ∃ f, betainccImpl (some bi) = some f ∧ f a b x = bi b a (sub (fin 1) x) :=
  ⟨_, rfl, rfl⟩

/-- Closed instance of `C7_betaincc_identity` at `a = b = x = 1/2` with a
concrete `betainc`. -/
theorem C7_betaincc_witness :
    ∃ f, betainccImpl (some (fun _ _ x => x)) = some f ∧
      f (fin (1/2)) (fin (1/2)) (fin (1/2)) =
        (fun _ _ x => x) (fin (1/2)) (fin (1/2)) (sub (fin 1) (fin (1/2))) :=
  C7_betaincc_identity (fun _ _ x => x) (fin (1/2)) (fin (1/2)) (fin (1/2))
    (by norm_num [ltb]) (by norm_num [ltb])

/-- Claim C6: antisymmetry of the generic `stdtr(df, t)` fallback about
`(t = 0, value = 1/2)`: `stdtr(df,t) + stdtr(df,-t) = 1`, for finite
`df > 0` and finite `t`, under the contract of the back end `betainc`
primitive (it returns a finite value at the evaluation point, equal to `1`
at upper limit `x = 1`, which is the point reached when `t = 0`).  The
model uses exact rational arithmetic, so no rounding is involved. -/
theorem C6_stdtr_antisym (bi : FpVal → FpVal → FpVal → FpVal) (d r c : ℚ)
    (hd : 0 < d)
    (hbi : bi (fin (d / 2)) (fin (1 / 2)) (fin (d / (r * r + d))) = fin c)
    (h0 : r = 0 → c = 1) :
    ∃ f, stdtrImpl (some bi) = some f ∧
      add (f (fin d) (fin r)) (f (fin d) (neg (fin r))) = fin 1 := by
  refine ⟨_, rfl, ?_⟩
  have hrr : (0 : ℚ) < r * r + d := by nlinarith [mul_self_nonneg r]
  have hrrne : r * r + d ≠ 0 := ne_of_gt hrr
  have h2ne : (2 : ℚ) ≠ 0 := by norm_num
  have hxr : div (fin d) (add (mul (fin r) (fin r)) (fin d)) =
      fin (d / (r * r + d)) := by
    simp [mul, add, div, hrrne]
  have hxnr : div (fin d) (add (mul (neg (fin r)) (neg (fin r))) (fin d)) =
      fin (d / (r * r + d)) := by
    simp [neg, mul, add, div, neg_mul_neg, hrrne]
  have hd2 : div (fin d) (fin 2) = fin (d / 2) := by simp [div, h2ne]
  have htail : div (bi (fin (d / 2)) (fin (1 / 2)) (fin (d / (r * r + d))))
      (fin 2) = fin (c / 2) := by
    rw [hbi]; simp [div, h2ne]
  simp only [stdtrImpl, Option.map_some]
  simp only [hxr, hxnr, hd2, htail]
  rcases lt_trichotomy r 0 with hr | hr | hr
  · have hb1 : ltb (fin r) (fin 0) = true := by simp [ltb, hr]
    have hb2 : ltb (neg (fin r)) (fin 0) = false := by
      simp only [neg, ltb]
      simp [not_lt.mpr (le_of_lt (neg_pos.mpr hr))]
    rw [hb1, hb2]
    simp only [sub, neg, add]
    norm_num
  · subst hr
    have hc : c = 1 := h0 rfl
    subst hc
    have hb : ltb (neg (fin 0)) (fin 0) = false := by
      simp [neg, ltb]
    have hb0 : ltb (fin 0) (fin 0) = false := by simp [ltb]
    rw [hb, hb0]
    simp only [sub, neg, add]
    norm_num
  · have hb1 : ltb (fin r) (fin 0) = false := by
      simp [ltb, not_lt.mpr (le_of_lt hr)]
    have hb2 : ltb (neg (fin r)) (fin 0) = true := by
      simp [neg, ltb, neg_neg_iff_pos.mpr hr]
    rw [hb1, hb2]
    simp only [sub, neg, add]
    norm_num

/-- Closed instance of `C6_stdtr_antisym` at `df = 2`, `t = 0`, with
`betainc` modelled by the function returning its third argument (which
satisfies the contract at the evaluation point: `2/(0*0+2) = 1`). -/
theorem C6_stdtr_witness :
    (0 : ℚ) < 2 ∧
    ∃ f, stdtrImpl (some fun _ _ x => x) = some f ∧
      add (f (fin 2) (fin 0)) (f (fin 2) (neg (fin 0))) = fin 1 :=
  ⟨by norm_num,
   C6_stdtr_antisym (fun _ _ x => x) 2 0 1 (by norm_num)
     (by norm_num) (fun _ => rfl)⟩

/-- Claim C1: for every function name in the fixed set and every back end,
dispatch resolves with first match winning: (1) NumPy back end gets the
compiled kernel; (2) a same-named function in the companion special
namespace is returned directly; (3) a fallback-table factory returning a
usable function is used; (4) otherwise the synthesized native-conversion
implementation is returned.  The final disjunction states totality: the
result is always one of these four, never a failure. -/
theorem C1_dispatch_order {α : Type} (f_name : String) (xp : Backend α)
    (hmem : f_name ∈ array_special_func_map.map Prod.fst) :
    (xp.isNumpy = true →
      get_array_special_func f_name xp = Impl.kernel f_name) ∧
    (∀ s f, xp.isNumpy = false → xp.spx = some s → s f_name = some f →
      get_array_special_func f_name xp = Impl.fromNamespace f) ∧
    (∀ factory g, xp.isNumpy = false →
      (∀ s, xp.spx = some s → s f_name = none) →
      _generic_implementations α f_name = some factory → factory xp = some g →
      get_array_special_func f_name xp = Impl.generic g) ∧
    (xp.isNumpy = false →
      (∀ s, xp.spx = some s → s f_name = none) →
      (∀ factory, _generic_implementations α f_name = some factory →
        factory xp = none) →
      get_array_special_func f_name xp =
        Impl.synthesized f_name (synthVariant xp)) ∧
    (get_array_special_func f_name xp = Impl.kernel f_name ∨
      (∃ f, get_array_special_func f_name xp = Impl.fromNamespace f) ∨
      (∃ g, get_array_special_func f_name xp = Impl.generic g) ∨
      get_array_special_func f_name xp =
        Impl.synthesized f_name (synthVariant xp)) := by
  refine ⟨?_, ?_, ?_, ?_, ?_⟩
  · intro h
    simp [get_array_special_func, h]
  · intro s f h0 hs hf
    simp [get_array_special_func, h0, hs, hf]
  · intro factory g h0 hs hfac hg
    cases hspx : xp.spx with
    | none => simp [get_array_special_func, h0, hspx, hfac, hg]
    | some s => simp [get_array_special_func, h0, hspx, hs s hspx, hfac, hg]
  · intro h0 hs hnone
    cases hspx : xp.spx with
    | none =>
      cases hfac : _generic_implementations α f_name with
      | none => simp [get_array_special_func, h0, hspx, hfac]
      | some factory =>
        simp [get_array_special_func, h0, hspx, hfac, hnone factory hfac]
    | some s =>
      cases hfac : _generic_implementations α f_name with
      | none => simp [get_array_special_func, h0, hspx, hs s hspx, hfac]
      | some factory =>
        simp [get_array_special_func, h0, hspx, hs s hspx, hfac,
          hnone factory hfac]
  · by_cases h0 : xp.isNumpy = true
    · exact Or.inl (by simp [get_array_special_func, h0])
    · rw [Bool.not_eq_true] at h0
      cases hspx : xp.spx with
      | some s =>
        cases hsf : s f_name with
        | some f =>
          exact Or.inr (Or.inl ⟨f,
            by simp [get_array_special_func, h0, hspx, hsf]⟩)
        | none =>
          cases hfac : _generic_implementations α f_name with
          | none =>
            exact Or.inr (Or.inr (Or.inr
              (by simp [get_array_special_func, h0, hspx, hsf, hfac])))
          | some factory =>
            cases hfg : factory xp with
            | some g =>
              exact Or.inr (Or.inr (Or.inl ⟨g,
                by simp [get_array_special_func, h0, hspx, hsf, hfac, hfg]⟩))
            | none =>
              exact Or.inr (Or.inr (Or.inr
                (by simp [get_array_special_func, h0, hspx, hsf, hfac, hfg])))
      | none =>
        cases hfac : _generic_implementations α f_name with
        | none =>
          exact Or.inr (Or.inr (Or.inr
            (by simp [get_array_special_func, h0, hspx, hfac])))
        | some factory =>
          cases hfg : factory xp with
          | some g =>
            exact Or.inr (Or.inr (Or.inl ⟨g,
              by simp [get_array_special_func, h0, hspx, hfac, hfg]⟩))
          | none =>
            exact Or.inr (Or.inr (Or.inr
              (by simp [get_array_special_func, h0, hspx, hfac, hfg])))

/-- Closed instances of `C1_dispatch_order`, one per dispatch tier:
`erf` on the NumPy back end gets the kernel; `erf` on a back end whose
companion namespace holds token `7` gets that token; `rel_entr` on a bare
back end gets the generic fallback; `chdtr` on a back end with no native
`gammainc` gets the synthesized implementation. -/
theorem C1_dispatch_witness :
    get_array_special_func "erf" (Backend.mk (α := Nat) true none none
      false false) = Impl.kernel "erf" ∧
    get_array_special_func "erf" (Backend.mk false
      (some fun n => if n = "erf" then some 7 else none) none false false) =
      Impl.fromNamespace 7 ∧
    get_array_special_func "rel_entr" (Backend.mk (α := Nat) false none none
      false false) = Impl.generic GenFunc.relEntrG ∧
    get_array_special_func "chdtr" (Backend.mk (α := Nat) false none none
      false false) = Impl.synthesized "chdtr" SynthVariant.plain :=
  ⟨(C1_dispatch_order "erf" _ (by decide)).1 rfl,
   (C1_dispatch_order "erf" _ (by decide)).2.1
     (fun n => if n = "erf" then some 7 else none) 7 rfl rfl (by decide),
   (C1_dispatch_order "rel_entr" _ (by decide)).2.2.1
     (fun _ => some GenFunc.relEntrG) GenFunc.relEntrG rfl
     (fun s hs => by cases hs) rfl rfl,
   (C1_dispatch_order "chdtr" _ (by decide)).2.2.2.1 rfl
     (fun s hs => by cases hs) (fun factory hfac => by
       rw [show _generic_implementations Nat "chdtr" = some fun xp =>
           (_get_native_func xp "gammainc").map GenFunc.chdtrG from rfl]
         at hfac
       cases hfac
       rfl)⟩

/-- Claim C8: a fallback factory whose required native primitive
(`betainc`, `gammainc`, `gammaincc`) is missing from the back end returns
`None` (an explicit absent value, not an error); the dispatcher then treats
this exactly like an unregistered name and proceeds to the synthesized
native-conversion path.  In particular `stdtr` and `stdtrit` on a back end
lacking `betainc` resolve to the synthesized implementation, never to a
partly computed fallback. -/
theorem C8_absent_primitive {α : Type} (xp : Backend α) :
    (_get_native_func xp "betainc" = none →
      (∃ fac, _generic_implementations α "stdtr" = some fac ∧
        fac xp = none) ∧
      (∃ fac, _generic_implementations α "stdtrit" = some fac ∧
        fac xp = none) ∧
      (∃ fac, _generic_implementations α "betaincc" = some fac ∧
        fac xp = none)) ∧
    (_get_native_func xp "gammainc" = none →
      ∃ fac, _generic_implementations α "chdtr" = some fac ∧ fac xp = none) ∧
    (_get_native_func xp "gammaincc" = none →
      ∃ fac, _generic_implementations α "chdtrc" = some fac ∧
        fac xp = none) ∧
    (_get_native_func xp "betainc" = none → xp.isNumpy = false →
      (∀ s, xp.spx = some s → s "stdtr" = none) →
      get_array_special_func "stdtr" xp =
        Impl.synthesized "stdtr" (synthVariant xp)) ∧
    (_get_native_func xp "betainc" = none → xp.isNumpy = false →
      (∀ s, xp.spx = some s → s "stdtrit" = none) →
      get_array_special_func "stdtrit" xp =
        Impl.synthesized "stdtrit" (synthVariant xp)) ∧
    (∀ f_name, _generic_implementations α f_name = none →
      xp.isNumpy = false → (∀ s, xp.spx = some s → s f_name = none) →
      get_array_special_func f_name xp =
        Impl.synthesized f_name (synthVariant xp)) := by
  refine ⟨?_, ?_, ?_, ?_, ?_, ?_⟩
  · intro h
    exact ⟨⟨_, rfl, by simp [h]⟩, ⟨_, rfl, by simp [h]⟩, ⟨_, rfl,
      by simp [h]⟩⟩
  · intro h
    exact ⟨_, rfl, by simp [h]⟩
  · intro h
    exact ⟨_, rfl, by simp [h]⟩
  · intro h h0 hs
    cases hspx : xp.spx with
    | none => simp [get_array_special_func, h0, hspx,
        _generic_implementations, h]
    | some s => simp [get_array_special_func, h0, hspx, hs s hspx,
        _generic_implementations, h]
  · intro h h0 hs
    cases hspx : xp.spx with
    | none => simp [get_array_special_func, h0, hspx,
        _generic_implementations, h]
    | some s => simp [get_array_special_func, h0, hspx, hs s hspx,
        _generic_implementations, h]
  · intro f_name hfac h0 hs
    cases hspx : xp.spx with
    | none => simp [get_array_special_func, h0, hspx, hfac]
    | some s => simp [get_array_special_func, h0, hspx, hs s hspx, hfac]

/-- Closed instance of `C8_absent_primitive` on a back end with a companion
namespace that holds nothing: the `stdtr` factory reports unavailable and
dispatch of `stdtr` lands on the synthesized implementation. -/
theorem C8_absent_witness :
    (∃ fac, _generic_implementations Nat "stdtr" = some fac ∧
      fac (Backend.mk false (some fun _ => none) none false false) = none) ∧
    get_array_special_func "stdtr"
      (Backend.mk (α := Nat) false (some fun _ => none) none false false) =
      Impl.synthesized "stdtr" SynthVariant.plain :=
  ⟨(C8_absent_primitive
      (Backend.mk false (some fun _ => none) none false false)).1 rfl |>.1,
   (C8_absent_primitive
      (Backend.mk false (some fun _ => none) none false false)).2.2.2.1 rfl
     rfl (fun s hs => by cases hs; rfl)⟩

theorem foldl_or_mask {V : Type} (l : List (MaskedArray V)) (m : Bool) :
    l.foldl (fun acc b => acc || b.mask) m = (m || l.any (·.mask)) := by
  induction l generalizing m with
  | nil => simp
  | cons a rest ih => simp [List.any_cons, ih, Bool.or_assoc]

theorem any_mask_congr {V : Type} {l1 l2 : List (MaskedArray V)}
    (h : l1.map (·.mask) = l2.map (·.mask)) :
    l1.any (·.mask) = l2.any (·.mask) := by
  induction l1 generalizing l2 with
  | nil => cases l2 <;> simp_all
  | cons a t ih =>
    cases l2 with
    | nil => simp_all
    | cons b t2 =>
      simp only [List.map_cons, List.cons.injEq] at h
      simp [List.any_cons, h.1, ih h.2]

/-- Claim C9: the masked-array branch of the synthesized implementation
computes the result data by applying the public dispatching function
(`public_f`, modelling `globals()[f_name]`, which recurses through dispatch
and so handles nested back ends) to the per-argument `data` fields only,
and the result mask is exactly the elementwise OR of all the masks: it
does not depend on the data values, nor on the function. -/
theorem C9_masked_synthesis {V : Type} (public_f : List V → V)
    (args : List (MaskedArray V)) (h : args ≠ []) :
    (∃ r, maskedSynth public_f args = some r ∧
      r.data = public_f (args.map (·.data)) ∧
      r.mask = args.any (·.mask)) ∧
    (∀ (public_f2 : List V → V) (args2 : List (MaskedArray V)),
      args2.map (·.mask) = args.map (·.mask) →
      Option.map (·.mask) (maskedSynth public_f2 args2) =
        Option.map (·.mask) (maskedSynth public_f args)) := by
  constructor
  · match args, h with
    | a :: rest, _ =>
      refine ⟨_, rfl, rfl, ?_⟩
      simp [foldl_or_mask, List.any_cons]
  · intro pf2 args2 hmask
    match args, args2, h, hmask with
    | a :: rest, a2 :: rest2, _, hmask =>
      simp only [List.map_cons, List.cons.injEq] at hmask
      simp only [maskedSynth, Option.map_some]
      rw [foldl_or_mask, foldl_or_mask, hmask.1, any_mask_congr hmask.2]
      simp

/-- Closed instance of `C9_masked_synthesis` on a two-argument call: the
data is the public function applied to the data parts, and the mask is the
OR of the two masks, unchanged when the data values change. -/
theorem C9_masked_witness :
    (∃ r, maskedSynth (fun l => l.foldl (· + ·) 0)
        [⟨(3 : Int), false⟩, ⟨4, true⟩] = some r ∧
      r.data = (fun l : List Int => l.foldl (· + ·) 0) [3, 4] ∧
      r.mask = [(⟨3, false⟩ : MaskedArray Int), ⟨4, true⟩].any (·.mask)) ∧
    Option.map (·.mask) (maskedSynth (fun _ => (0 : Int))
        [⟨7, false⟩, ⟨9, true⟩]) =
      Option.map (·.mask) (maskedSynth (fun l => l.foldl (· + ·) 0)
        [⟨(3 : Int), false⟩, ⟨4, true⟩]) :=
  ⟨(C9_masked_synthesis (fun l => l.foldl (· + ·) 0)
      [⟨3, false⟩, ⟨4, true⟩] (by simp)).1,
   (C9_masked_synthesis (fun l => l.foldl (· + ·) 0)
      [⟨3, false⟩, ⟨4, true⟩] (by simp)).2 (fun _ => 0)
      [⟨7, false⟩, ⟨9, true⟩] (by simp)⟩

/-- Claim C10: `_get_native_func` consults the SciPy companion namespace
(`spx.special`) first; only when the companion namespace is absent or lacks
the name does it consult the back end `special` attribute (`xp.special`).
So for a back end exposing the name in both places, the companion-namespace
function is the one returned. -/
theorem C10_get_native_func_priority {α : Type} (xp : Backend α)
    (f_name : String) :
    (∀ s f, xp.spx = some s → s f_name = some f →
      _get_native_func xp f_name = some f) ∧
    (∀ s2, (∀ s, xp.spx = some s → s f_name = none) →
      xp.xpSpecial = some s2 → _get_native_func xp f_name = s2 f_name) ∧
    ((∀ s, xp.spx = some s → s f_name = none) → xp.xpSpecial = none →
      _get_native_func xp f_name = none) := by
  refine ⟨fun s f hs hf => ?_, fun s2 hs h2 => ?_, fun hs h2 => ?_⟩
  · simp [_get_native_func, hs, hf]
  · cases h : xp.spx with
    | none => simp [_get_native_func, h, h2]
    | some s => simp [_get_native_func, h, hs s h, h2]
  · cases h : xp.spx with
    | none => simp [_get_native_func, h, h2]
    | some s => simp [_get_native_func, h, hs s h, h2]

/-- Closed instance of `C10_get_native_func_priority`: a back end exposing
`gammainc` both in the companion namespace (as token `1`) and in
`xp.special` (as token `2`) resolves to the companion token `1`. -/
theorem C10_get_native_func_witness :
    _get_native_func
      (Backend.mk false
        (some fun n => if n = "gammainc" then some 1 else none)
        (some fun n => if n = "gammainc" then some 2 else none)
        false false)
      "gammainc" = some 1 :=
  (C10_get_native_func_priority _ "gammainc").1
    (fun n => if n = "gammainc" then some 1 else none) 1 rfl (by decide)
